import Mathlib

/-!
Verification of the NLP lab repository (`dataloading.py`, `attention.py`):
a shallow embedding of the sentence dataset preprocessing and of the
attention-based classifier family, with theorems settling the spec claims.
-/

/-! ### Dataset preprocessing (`dataloading.py`, `SentenceDataset`) -/

/-- `SentenceDataset.MAX_LEN = 8`. -/
def MAX_LEN : ℕ := 8

/-- Splits a character list on whitespace runs, accumulating the current
token in reverse; empty pieces are dropped, as Python `str.split()` does. -/
def splitWsAux : List Char → List Char → List String
  | [], acc => if acc.isEmpty then [] else [String.mk acc.reverse]
  | c :: cs, acc =>
    if c.isWhitespace then
      if acc.isEmpty then splitWsAux cs [] else String.mk acc.reverse :: splitWsAux cs []
    else splitWsAux cs (c :: acc)

/-- `sentence.lower().split()`: lowercase every character, then split on
whitespace runs, dropping empty pieces (Python `str.split()` with no
separator argument). -/
def lowerSplit (s : String) : List String :=
  splitWsAux (s.data.map Char.toLower) []

/-- Python `dict.get(word, default)` on the `word2idx` dictionary, whose
lookups return `Option ℕ` (`None` when the key is absent). -/
def dictGet (w2i : String → Option ℕ) (w : String) (dflt : Option ℕ) : Option ℕ :=
  match w2i w with
  | some i => some i
  | none => dflt

/-- `indexed = [self.word2idx.get(word, unk_idx) for word in tokens]` with
`unk_idx = self.word2idx.get("<unk>")`.  Entries are `Option ℕ` because
`unk_idx` is itself `None` when `"<unk>"` is not in the dictionary. -/
def encodeSentence (w2i : String → Option ℕ) (tokens : List String) : List (Option ℕ) :=
  tokens.map (fun w => dictGet w2i w (w2i "<unk>"))

/-- Truncate or pad `indexed` to `MAX_LEN` with `pad_idx = 0`. -/
def padTruncate (l : List (Option ℕ)) : List (Option ℕ) :=
  if l.length < MAX_LEN then l ++ List.replicate (MAX_LEN - l.length) (some 0)
  else l.take MAX_LEN

/-- The `example` component returned by `SentenceDataset.__getitem__`. -/
def getItemExample (w2i : String → Option ℕ) (s : String) : List (Option ℕ) :=
  padTruncate (encodeSentence w2i (lowerSplit s))

/-- The `length` component returned by `SentenceDataset.__getitem__`:
`min(len(indexed), MAX_LEN)`. -/
def getItemLength (w2i : String → Option ℕ) (s : String) : ℕ :=
  min (encodeSentence w2i (lowerSplit s)).length MAX_LEN

/-- The full triple `(example, label, length)` returned by
`SentenceDataset.__getitem__` (the label is passed through unchanged). -/
def sentenceGetItem (w2i : String → Option ℕ) (s : String) (label : ℤ) :
    List (Option ℕ) × ℤ × ℕ :=
  (getItemExample w2i s, label, getItemLength w2i s)

/-- A concrete vocabulary used for witnesses: the mapping of the spec's
worked example, together with the reserved `"<unk>"` entry. -/
def vocabEx : String → Option ℕ := fun w =>
  if w = "this" then some 5
  else if w = "is" then some 9
  else if w = "really" then some 41
  else if w = "simple" then some 12
  else if w = "<unk>" then some 1
  else none

theorem encodeSentence_length (w2i : String → Option ℕ) (tokens : List String) :
    (encodeSentence w2i tokens).length = tokens.length := by
  simp [encodeSentence]

theorem padTruncate_length (l : List (Option ℕ)) :
    (padTruncate l).length = MAX_LEN := by
  unfold padTruncate
  split
  · simp only [List.length_append, List.length_replicate]
    omega
  · simp only [List.length_take]
    omega

/-- C1: for every vocabulary and every input sentence (empty and over-long
sentences included), the encoded sequence returned by
`SentenceDataset.__getitem__` has length exactly `MAX_LEN = 8`. -/
theorem getItem_example_length_eq_max_len (w2i : String → Option ℕ) (s : String)
    (label : ℤ) : (sentenceGetItem w2i s label).1.length = MAX_LEN := by
  simp [sentenceGetItem, getItemExample, padTruncate_length]

/-- C2 counterexample: on a nine-token sentence the third component returned
by `__getitem__` is `8 = MAX_LEN`, not the true token count `9`, so the
length is NOT returned "with no upper bound". -/
theorem getItem_length_not_uncapped :
    (sentenceGetItem vocabEx "a a a a a a a a a" 0).2.2 ≠
      (lowerSplit "a a a a a a a a a").length ∧
    (sentenceGetItem vocabEx "a a a a a a a a a" 0).2.2 = 8 ∧
    (lowerSplit "a a a a a a a a a").length = 9 := by
  refine ⟨?_, ?_, ?_⟩ <;> decide

/-- C2 (amended): the third component returned by `__getitem__` equals the
pre-padding token count capped at `MAX_LEN`, i.e. `min(token count, 8)`. -/
theorem getItem_length_eq_min_count_max_len (w2i : String → Option ℕ) (s : String)
    (label : ℤ) :
    (sentenceGetItem w2i s label).2.2 = min (lowerSplit s).length MAX_LEN := by
  simp [sentenceGetItem, getItemLength, encodeSentence_length]

/-- C7: when the vocabulary holds the reserved `"<unk>"` entry (as
`load_word_vectors()` guarantees), every token encodes to an actual index
(the lookup never fails), and a token absent from the vocabulary encodes to
precisely the `"<unk>"` index, the surrounding tokens being unaffected. -/
theorem encode_oov_maps_to_unk (w2i : String → Option ℕ) (u : ℕ)
    (hu : w2i "<unk>" = some u) :
    (∀ tokens, ∀ o ∈ encodeSentence w2i tokens, o.isSome) ∧
    (∀ pre (w : String) post, w2i w = none →
      encodeSentence w2i (pre ++ w :: post) =
        encodeSentence w2i pre ++ some u :: encodeSentence w2i post) := by
  constructor
  · intro tokens o ho
    rcases List.mem_map.1 ho with ⟨w, -, rfl⟩
    unfold dictGet
    cases h : w2i w with
    | some i => simp
    | none => simp [hu]
  · intro pre w post hw
    unfold encodeSentence
    simp only [List.map_append, List.map_cons]
    unfold dictGet
    rw [hw, hu]

/-- Witness for C7 at the concrete vocabulary `vocabEx`, whose `"<unk>"`
index is `1`, and the out-of-vocabulary token `"zz"`. -/
theorem encode_oov_maps_to_unk_witness :
    vocabEx "<unk>" = some 1 ∧ vocabEx "zz" = none ∧
    encodeSentence vocabEx (["this"] ++ "zz" :: ["is"]) =
      encodeSentence vocabEx ["this"] ++ some 1 :: encodeSentence vocabEx ["is"] :=
  ⟨by decide, by decide,
    (encode_oov_maps_to_unk vocabEx 1 (by decide)).2 ["this"] "zz" ["is"] (by decide)⟩

/-- C8: the spec's worked example, with the label passed through as `1`. -/
theorem getItem_worked_example :
    sentenceGetItem vocabEx "this is really simple" 1 =
      ([some 5, some 9, some 41, some 12, some 0, some 0, some 0, some 0], 1, 4) := by
  decide

theorem padTruncate_decomp (l : List (Option ℕ)) :
    padTruncate l =
      l.take (min l.length MAX_LEN) ++
        List.replicate (MAX_LEN - min l.length MAX_LEN) (some 0) := by
  unfold padTruncate
  split
  · rename_i h
    rw [Nat.min_eq_left (Nat.le_of_lt h), List.take_length]
  · rename_i h
    rw [Nat.min_eq_right (Nat.le_of_not_lt h)]
    simp

/-- C10: the encoded sequence is the encoded tokens up to the returned
length followed by a contiguous suffix of pad indices `0`, and every entry
before the returned length is a vocabulary index or the `"<unk>"` index. -/
theorem getItem_padding_suffix_invariant (w2i : String → Option ℕ) (u : ℕ)
    (s : String) (hu : w2i "<unk>" = some u) :
    getItemExample w2i s =
      (encodeSentence w2i (lowerSplit s)).take (getItemLength w2i s) ++
        List.replicate (MAX_LEN - getItemLength w2i s) (some 0) ∧
    ∀ o ∈ (encodeSentence w2i (lowerSplit s)).take (getItemLength w2i s),
      ∃ v, o = some v ∧ (v = u ∨ ∃ w, w2i w = some v) := by
  constructor
  · unfold getItemExample getItemLength
    exact padTruncate_decomp _
  · intro o ho
    have ho' : o ∈ encodeSentence w2i (lowerSplit s) := List.take_subset _ _ ho
    rcases List.mem_map.1 ho' with ⟨w, -, rfl⟩
    unfold dictGet
    cases h : w2i w with
    | some i => exact ⟨i, rfl, Or.inr ⟨w, h⟩⟩
    | none => exact ⟨u, by rw [hu], Or.inl rfl⟩

/-- Witness for C10 at the concrete vocabulary `vocabEx` and the two-token
sentence `"this is"`. -/
theorem getItem_padding_suffix_invariant_witness :
    vocabEx "<unk>" = some 1 ∧
    getItemExample vocabEx "this is" =
      (encodeSentence vocabEx (lowerSplit "this is")).take
          (getItemLength vocabEx "this is") ++
        List.replicate (MAX_LEN - getItemLength vocabEx "this is") (some 0) :=
  ⟨by decide, (getItem_padding_suffix_invariant vocabEx 1 "this is" (by decide)).1⟩

/-! ### Attention models (`attention.py`) -/

/-- A `(T, C)` activation tensor for one example: `T` sequence positions,
`C` channels, with rational entries idealising the float tensors. -/
abbrev Mat (T C : ℕ) := Fin T → Fin C → ℚ

/-- `nn.Linear(inn, out, bias=False)` applied position-wise: `y = x @ W.T`. -/
def linearNoBias (T inn out : ℕ) (W : Fin out → Fin inn → ℚ) (x : Mat T inn) :
    Mat T out :=
  fun t o => ∑ i, W o i * x t i

/-- `M.transpose(-2, -1)` on a single example. -/
def transposeM (a b : ℕ) (M : Mat a b) : Mat b a := fun i j => M j i

/-- Batched `@` (matrix product) on a single example. -/
def matMulQ (a b c : ℕ) (A : Mat a b) (M : Mat b c) : Mat a c :=
  fun i j => ∑ k, A i k * M k j

/-- `F.softmax(·, dim=-1)`: row-wise softmax.  The pointwise exponential is
a parameter `e`; the only property of the real exponential the claims rely
on is strict positivity, supplied as a hypothesis where it is needed. -/
def softmaxRows (T : ℕ) (e : ℚ → ℚ) (M : Mat T T) : Mat T T :=
  fun i j => e (M i j) / ∑ j', e (M i j')

/-- The attention scores of `Head.forward`:
`wei = q @ k.transpose(-2, -1) * C**-0.5`, where `C` is the channel
dimension of the input `x` (not the head size `H`) and `rsqrt c` models the
float `c**-0.5`. -/
def headScores (T C H : ℕ) (Wk Wq : Fin H → Fin C → ℚ) (rsqrt : ℕ → ℚ)
    (x : Mat T C) : Mat T T :=
  fun i j =>
    matMulQ T H T (linearNoBias T C H Wq x) (transposeM T H (linearNoBias T C H Wk x)) i j *
      rsqrt C

/-- The attention weight matrix computed inside `Head.forward`: the
row-wise softmax of the scores, before dropout is applied. -/
def headAttnWeights (T C H : ℕ) (Wk Wq : Fin H → Fin C → ℚ) (e : ℚ → ℚ)
    (rsqrt : ℕ → ℚ) (x : Mat T C) : Mat T T :=
  softmaxRows T e (headScores T C H Wk Wq rsqrt x)

/-- `Head.forward`: key/query projections, scaled dot-product scores,
row-wise softmax, dropout (an arbitrary function `drop`, the identity in
eval mode), then the weighted aggregation `wei @ v` of the value
projection. -/
def headForward (T C H : ℕ) (Wk Wq Wv : Fin H → Fin C → ℚ) (e : ℚ → ℚ)
    (rsqrt : ℕ → ℚ) (drop : Mat T T → Mat T T) (x : Mat T C) : Mat T H :=
  matMulQ T T H (drop (headAttnWeights T C H Wk Wq e rsqrt x)) (linearNoBias T C H Wv x)

/-- Spec §4.2 in its own words, for comparison with `headForward`: project
to query/key/value via independent linear maps; pairwise scores are the
dot product of query and key scaled by `channels**-0.5`; a row-wise softmax
gives the attention weights; dropout is applied to the weights; the output
is the weighted sum of the value vectors. -/
def specSingleHeadAttention (T C H : ℕ) (Wk Wq Wv : Fin H → Fin C → ℚ)
    (e : ℚ → ℚ) (rsqrt : ℕ → ℚ) (drop : Mat T T → Mat T T) (x : Mat T C) :
    Mat T H :=
  let q := linearNoBias T C H Wq x
  let k := linearNoBias T C H Wk x
  let v := linearNoBias T C H Wv x
  let scores : Mat T T := fun i j => (∑ h, q i h * k j h) * rsqrt C
  let weights := drop (softmaxRows T e scores)
  fun t h => ∑ j, weights t j * v j h

/-- `Block.forward` (the same inline residual structure appears in
`SimpleSelfAttentionModel.forward` and `MultiHeadAttentionModel.forward`);
the sub-layer modules `sa`, `ffwd` and the layer norms `ln1`, `ln2` are the
module's attributes, taken here as arbitrary functions. -/
def blockForward (V : Type) [Add V] (sa ffwd ln1 ln2 : V → V) (x : V) : V :=
  let x1 := x + sa (ln1 x)
  let x2 := x1 + ffwd (ln2 x1)
  x2

/-- `x.mean(dim=1)` on one example: average pooling over the `T` positions. -/
def meanPool (T C : ℕ) (x : Mat T C) : Fin C → ℚ :=
  fun c => (∑ t, x t c) / (T : ℚ)

/-- `nn.Linear(inn, out)` with bias, on a single pooled vector. -/
def linearWithBias (inn out : ℕ) (W : Fin out → Fin inn → ℚ) (b : Fin out → ℚ)
    (v : Fin inn → ℚ) : Fin out → ℚ :=
  fun o => (∑ i, W o i * v i) + b o

/-- The logits a classifier model returns: rank 1 after the `squeeze(1)`
taken when `output_size == 1`, rank 2 otherwise.  Lists make the tensor
rank and the dimension sizes explicit. -/
inductive LogitsOut where
  | rank1 (v : List ℚ)
  | rank2 (m : List (List ℚ))

/-- `logits.squeeze(1) if output_size == 1 else logits`. -/
def squeezeLogits (B n : ℕ) (logits : Fin B → Fin n → ℚ) : LogitsOut :=
  if h : n = 1 then
    LogitsOut.rank1 ((List.finRange B).map (fun b => logits b ⟨0, by omega⟩))
  else
    LogitsOut.rank2
      ((List.finRange B).map (fun b => (List.finRange n).map (fun o => logits b o)))

/-- `SimpleSelfAttentionModel.forward`: token plus position embeddings, one
pre-norm attention/feed-forward residual pair (the attributes `sa`, `ffwd`,
`ln1`, `ln2` taken as functions), mean pooling over positions, the output
projection, and the squeeze for `output_size == 1`. -/
def simpleSelfAttentionForward (B T C n : ℕ) (tokEmb : ℕ → Fin C → ℚ)
    (posEmb : Fin T → Fin C → ℚ) (sa ffwd ln1 ln2 : Mat T C → Mat T C)
    (Wout : Fin n → Fin C → ℚ) (bout : Fin n → ℚ) (x : Fin B → Fin T → ℕ) :
    LogitsOut :=
  squeezeLogits B n (fun b =>
    let e0 : Mat T C := fun t c => tokEmb (x b t) c + posEmb t c
    let e1 := e0 + sa (ln1 e0)
    let e2 := e1 + ffwd (ln2 e1)
    linearWithBias C n Wout bout (meanPool T C e2))

/-- `MultiHeadAttentionModel.forward(x, lengths=None)`: the identical
pipeline, with the `lengths` argument accepted and never used. -/
def multiHeadAttentionModelForward (B T C n : ℕ) (tokEmb : ℕ → Fin C → ℚ)
    (posEmb : Fin T → Fin C → ℚ) (sa ffwd ln1 ln2 : Mat T C → Mat T C)
    (Wout : Fin n → Fin C → ℚ) (bout : Fin n → ℚ) (x : Fin B → Fin T → ℕ)
    (lengths : Option (List ℕ)) : LogitsOut :=
  squeezeLogits B n (fun b =>
    let e0 : Mat T C := fun t c => tokEmb (x b t) c + posEmb t c
    let e1 := e0 + sa (ln1 e0)
    let e2 := e1 + ffwd (ln2 e1)
    linearWithBias C n Wout bout (meanPool T C e2))

/-- `TransformerEncoderModel.forward`: embeddings, the `nn.Sequential` of
transformer blocks applied left to right, final layer norm, mean pooling,
output projection and squeeze. -/
def transformerEncoderForward (B T C n : ℕ) (tokEmb : ℕ → Fin C → ℚ)
    (posEmb : Fin T → Fin C → ℚ) (blocks : List (Mat T C → Mat T C))
    (lnf : Mat T C → Mat T C) (Wout : Fin n → Fin C → ℚ) (bout : Fin n → ℚ)
    (x : Fin B → Fin T → ℕ) : LogitsOut :=
  squeezeLogits B n (fun b =>
    let e0 : Mat T C := fun t c => tokEmb (x b t) c + posEmb t c
    let e1 := blocks.foldl (fun acc f => f acc) e0
    let e2 := lnf e1
    linearWithBias C n Wout bout (meanPool T C e2))

/-- A concrete strictly positive "exponential" used in witnesses. -/
def expOne : ℚ → ℚ := fun _ => 1

/-- A concrete `1 × 1` weight matrix used in witnesses. -/
def zeroW : Fin 1 → Fin 1 → ℚ := fun _ _ => 0

/-- A concrete `1 × 1` input activation used in witnesses. -/
def zeroX : Mat 1 1 := fun _ _ => 0

/-- A concrete model of `c**-0.5` used in witnesses. -/
def rsqrtOne : ℕ → ℚ := fun _ => 1

/-- C3: every row of the attention weight matrix computed inside
`Head.forward` (the result of the row-wise softmax, before dropout) has
non-negative entries that sum to 1, for any strictly positive pointwise
exponential — as the real exponential is. -/
theorem headAttnWeights_row_nonneg_sum_one (T C H : ℕ)
    (Wk Wq : Fin H → Fin C → ℚ) (e : ℚ → ℚ) (rsqrt : ℕ → ℚ) (x : Mat T C)
    (he : ∀ z, 0 < e z) (i : Fin T) :
    (∀ j, 0 ≤ headAttnWeights T C H Wk Wq e rsqrt x i j) ∧
    ∑ j, headAttnWeights T C H Wk Wq e rsqrt x i j = 1 := by
  have hS : 0 < ∑ j', e (headScores T C H Wk Wq rsqrt x i j') :=
    Finset.sum_pos (fun j _ => he _) ⟨i, Finset.mem_univ i⟩
  constructor
  · intro j
    exact div_nonneg (le_of_lt (he _)) (le_of_lt hS)
  · unfold headAttnWeights softmaxRows
    rw [← Finset.sum_div]
    exact div_self (ne_of_gt hS)

/-- Witness for C3 at a concrete `1 × 1` head with the positive pointwise
exponential `expOne`. -/
theorem headAttnWeights_row_witness :
    (∀ z : ℚ, 0 < expOne z) ∧
    ((∀ j, 0 ≤ headAttnWeights 1 1 1 zeroW zeroW expOne rsqrtOne zeroX 0 j) ∧
      ∑ j, headAttnWeights 1 1 1 zeroW zeroW expOne rsqrtOne zeroX 0 j = 1) :=
  ⟨fun _ => by norm_num [expOne],
    headAttnWeights_row_nonneg_sum_one 1 1 1 zeroW zeroW expOne rsqrtOne zeroX
      (fun _ => by norm_num [expOne]) 0⟩

/-- C4: `Head.forward` is exactly the spec's scaled dot-product attention:
scores are the query/key dot products scaled by `C**-0.5` with `C` the
channel dimension of the input `x` (not the head size `H`), then row-wise
softmax, then dropout, then the weighted sum of the value projections. -/
theorem headForward_eq_spec_attention (T C H : ℕ) (Wk Wq Wv : Fin H → Fin C → ℚ)
    (e : ℚ → ℚ) (rsqrt : ℕ → ℚ) (drop : Mat T T → Mat T T) (x : Mat T C) :
    headForward T C H Wk Wq Wv e rsqrt drop x =
      specSingleHeadAttention T C H Wk Wq Wv e rsqrt drop x ∧
    ∀ i j, headScores T C H Wk Wq rsqrt x i j =
      (∑ h, linearNoBias T C H Wq x i h * linearNoBias T C H Wk x j h) * rsqrt C := by
  exact ⟨rfl, fun i j => rfl⟩

/-- C5: `Block.forward` is the pre-norm residual composition
`x₁ = x + sa(ln1(x))` followed by `x₂ = x₁ + ffwd(ln2(x₁))`: each layer
norm is applied to the sub-layer's input, never to its output. -/
theorem blockForward_pre_norm_residual (V : Type) [Add V]
    (sa ffwd ln1 ln2 : V → V) (x : V) :
    blockForward V sa ffwd ln1 ln2 x =
      (x + sa (ln1 x)) + ffwd (ln2 (x + sa (ln1 x))) := rfl

theorem squeezeLogits_one (B : ℕ) (logits : Fin B → Fin 1 → ℚ) :
    ∃ v, squeezeLogits B 1 logits = LogitsOut.rank1 v ∧ v.length = B := by
  unfold squeezeLogits
  rw [dif_pos rfl]
  exact ⟨_, rfl, by simp⟩

theorem squeezeLogits_two_plus (B m : ℕ) (logits : Fin B → Fin (m + 2) → ℚ) :
    ∃ M, squeezeLogits B (m + 2) logits = LogitsOut.rank2 M ∧ M.length = B ∧
      ∀ r ∈ M, r.length = m + 2 := by
  unfold squeezeLogits
  rw [dif_neg (by omega)]
  refine ⟨_, rfl, by simp, ?_⟩
  intro r hr
  rcases List.mem_map.1 hr with ⟨b, -, rfl⟩
  simp

/-- C6: with `output_size == 1` each of the three classifier forwards
returns a rank-1 tensor of `B` scalar logits (the size-1 dimension is
squeezed away); with `output_size = m + 2 > 1` each returns a rank-2
tensor of shape `(B, output_size)`. -/
theorem classifier_forward_squeeze_shapes (B T C : ℕ) (tokEmb : ℕ → Fin C → ℚ)
    (posEmb : Fin T → Fin C → ℚ) (sa ffwd ln1 ln2 : Mat T C → Mat T C)
    (blocks : List (Mat T C → Mat T C)) (lnf : Mat T C → Mat T C)
    (W1 : Fin 1 → Fin C → ℚ) (b1 : Fin 1 → ℚ) (x : Fin B → Fin T → ℕ)
    (lengths : Option (List ℕ)) :
    (∃ v, simpleSelfAttentionForward B T C 1 tokEmb posEmb sa ffwd ln1 ln2 W1 b1 x =
        LogitsOut.rank1 v ∧ v.length = B) ∧
    (∃ v, multiHeadAttentionModelForward B T C 1 tokEmb posEmb sa ffwd ln1 ln2 W1 b1
        x lengths = LogitsOut.rank1 v ∧ v.length = B) ∧
    (∃ v, transformerEncoderForward B T C 1 tokEmb posEmb blocks lnf W1 b1 x =
        LogitsOut.rank1 v ∧ v.length = B) ∧
    ∀ (m : ℕ) (Wm : Fin (m + 2) → Fin C → ℚ) (bm : Fin (m + 2) → ℚ),
      (∃ M, simpleSelfAttentionForward B T C (m + 2) tokEmb posEmb sa ffwd ln1 ln2
          Wm bm x = LogitsOut.rank2 M ∧ M.length = B ∧ ∀ r ∈ M, r.length = m + 2) ∧
      (∃ M, multiHeadAttentionModelForward B T C (m + 2) tokEmb posEmb sa ffwd ln1 ln2
          Wm bm x lengths = LogitsOut.rank2 M ∧ M.length = B ∧
          ∀ r ∈ M, r.length = m + 2) ∧
      (∃ M, transformerEncoderForward B T C (m + 2) tokEmb posEmb blocks lnf Wm bm x =
          LogitsOut.rank2 M ∧ M.length = B ∧ ∀ r ∈ M, r.length = m + 2) := by
  refine ⟨squeezeLogits_one B _, squeezeLogits_one B _, squeezeLogits_one B _, ?_⟩
  intro m Wm bm
  exact ⟨squeezeLogits_two_plus B m _, squeezeLogits_two_plus B m _,
    squeezeLogits_two_plus B m _⟩

/-- C9: `MultiHeadAttentionModel.forward` never reads its `lengths`
argument: the output on any two values of `lengths` (including `None`) is
identical, so padded positions enter attention and mean pooling exactly
like real tokens. -/
theorem mha_model_forward_ignores_lengths (B T C n : ℕ) (tokEmb : ℕ → Fin C → ℚ)
    (posEmb : Fin T → Fin C → ℚ) (sa ffwd ln1 ln2 : Mat T C → Mat T C)
    (Wout : Fin n → Fin C → ℚ) (bout : Fin n → ℚ) (x : Fin B → Fin T → ℕ)
    (l1 l2 : Option (List ℕ)) :
    multiHeadAttentionModelForward B T C n tokEmb posEmb sa ffwd ln1 ln2 Wout bout x l1 =
      multiHeadAttentionModelForward B T C n tokEmb posEmb sa ffwd ln1 ln2 Wout bout x l2 :=
  rfl
